import Mathlib

/-!
Verification of `bokeh/dataclass.py`, a record ("data class") generation
facility.  The development shallowly embeds the data model of the module:

* Python dictionaries (which preserve insertion order) are embedded as
  association lists `List (FieldName × α)` together with the operations
  `alookup` (first-match lookup), `pyInsert` (`d[k] = v`: replace in place
  when the key is present, append otherwise) and `pyUpdate` (`d.update(e)`).
* Runtime values are embedded as the inductive `Value` (integers, strings,
  lists, tuples, named tuples, dicts, and data-class instances tagged with
  their concrete type name).
* The conversion routine `_recurse_structure`, the generated `__eq__`,
  `__iter__`, the field filters, the metaclass merge performed by
  `DataClassMeta.__new__`, the generated `__new__` parameter list, and the
  `replace` utility are translated from the source.
-/

set_option autoImplicit false

namespace DataclassSpec

abbrev FieldName := String

/-- The keys of an association list, in order. -/
def keys {α : Type} (l : List (FieldName × α)) : List FieldName :=
  l.map Prod.fst

/-- First-match lookup in an association list; Python dictionaries never hold
duplicate keys, so on well-formed inputs this is Python `d[k]` (as `Option`). -/
def alookup {α : Type} : List (FieldName × α) → FieldName → Option α
  | [], _ => none
  | p :: rest, k => if p.1 = k then some p.2 else alookup rest k

/-- Python `d[k] = v` on an insertion-ordered dictionary: if the key is
present its value is replaced in place, otherwise the pair is appended. -/
def pyInsert {α : Type} : List (FieldName × α) → FieldName → α → List (FieldName × α)
  | [], k, v => [(k, v)]
  | p :: rest, k, v => if p.1 = k then (k, v) :: rest else p :: pyInsert rest k v

/-- Python `d.update(e)`: insert the entries of `e` into `d` in order. -/
def pyUpdate {α : Type} (d e : List (FieldName × α)) : List (FieldName × α) :=
  e.foldl (fun acc p => pyInsert acc p.1 p.2) d

@[simp] theorem keys_nil {α : Type} : keys ([] : List (FieldName × α)) = [] := rfl

@[simp] theorem keys_cons {α : Type} (p : FieldName × α) (l : List (FieldName × α)) :
    keys (p :: l) = p.1 :: keys l := rfl

@[simp] theorem keys_append {α : Type} (l l' : List (FieldName × α)) :
    keys (l ++ l') = keys l ++ keys l' := List.map_append _ _ _

@[simp] theorem alookup_nil {α : Type} (k : FieldName) :
    alookup ([] : List (FieldName × α)) k = none := rfl

@[simp] theorem alookup_cons {α : Type} (p : FieldName × α) (l : List (FieldName × α))
    (k : FieldName) :
    alookup (p :: l) k = if p.1 = k then some p.2 else alookup l k := rfl

theorem pyUpdate_nil {α : Type} (d : List (FieldName × α)) : pyUpdate d [] = d := rfl

theorem pyUpdate_cons {α : Type} (d : List (FieldName × α)) (p : FieldName × α)
    (e : List (FieldName × α)) :
    pyUpdate d (p :: e) = pyUpdate (pyInsert d p.1 p.2) e := rfl

theorem alookup_eq_none_of_not_mem {α : Type} {l : List (FieldName × α)} {k : FieldName}
    (h : k ∉ keys l) : alookup l k = none := by
  induction l with
  | nil => rfl
  | cons p rest ih =>
    have h1 : k ≠ p.1 ∧ k ∉ keys rest := by simpa using h
    have h2 : p.1 ≠ k := fun hh => h1.1 hh.symm
    simp [h2, ih h1.2]

theorem mem_keys_of_alookup_isSome {α : Type} {l : List (FieldName × α)} {k : FieldName}
    (h : (alookup l k).isSome) : k ∈ keys l := by
  by_contra hk
  rw [alookup_eq_none_of_not_mem hk] at h
  simp at h

theorem keys_pyInsert_of_mem {α : Type} {d : List (FieldName × α)} {k : FieldName} (v : α)
    (h : k ∈ keys d) : keys (pyInsert d k v) = keys d := by
  induction d with
  | nil => simp at h
  | cons p rest ih =>
    rcases eq_or_ne p.1 k with hp | hp
    · simp [pyInsert, hp]
    · have hk : k ∈ keys rest := by
        rcases (by simpa using h : k = p.1 ∨ k ∈ keys rest) with h1 | h1
        · exact absurd h1.symm hp
        · exact h1
      simp [pyInsert, hp, ih hk]

theorem keys_pyInsert_of_not_mem {α : Type} {d : List (FieldName × α)} {k : FieldName} (v : α)
    (h : k ∉ keys d) : keys (pyInsert d k v) = keys d ++ [k] := by
  induction d with
  | nil => simp [pyInsert]
  | cons p rest ih =>
    have h1 : k ≠ p.1 ∧ k ∉ keys rest := by simpa using h
    have h2 : p.1 ≠ k := fun hh => h1.1 hh.symm
    simp [pyInsert, h2, ih h1.2]

theorem alookup_pyInsert_self {α : Type} (d : List (FieldName × α)) (k : FieldName) (v : α) :
    alookup (pyInsert d k v) k = some v := by
  induction d with
  | nil => simp [pyInsert]
  | cons p rest ih =>
    rcases eq_or_ne p.1 k with hp | hp
    · simp [pyInsert, hp]
    · simp [pyInsert, hp, ih]

theorem alookup_pyInsert_ne {α : Type} (d : List (FieldName × α)) {k k' : FieldName} (v : α)
    (h : k' ≠ k) : alookup (pyInsert d k v) k' = alookup d k' := by
  induction d with
  | nil => simp [pyInsert, Ne.symm h]
  | cons p rest ih =>
    rcases eq_or_ne p.1 k with hp | hp
    · have hpk' : p.1 ≠ k' := by rw [hp]; exact Ne.symm h
      simp [pyInsert, hp, Ne.symm h, hpk']
    · rcases eq_or_ne p.1 k' with hp' | hp'
      · simp [pyInsert, hp, hp', h]
      · simp [pyInsert, hp, hp', ih]

theorem alookup_pyUpdate_of_none {α : Type} {e : List (FieldName × α)} {k : FieldName}
    (d : List (FieldName × α)) (h : alookup e k = none) :
    alookup (pyUpdate d e) k = alookup d k := by
  induction e generalizing d with
  | nil => rfl
  | cons p rest ih =>
    rw [alookup_cons] at h
    by_cases hp : p.1 = k
    · simp [hp] at h
    · rw [if_neg hp] at h
      rw [pyUpdate_cons, ih _ h, alookup_pyInsert_ne _ _ (Ne.symm hp)]

theorem alookup_pyUpdate_of_some {α : Type} {e : List (FieldName × α)} {k : FieldName} {v : α}
    (d : List (FieldName × α)) (hnd : (keys e).Nodup) (h : alookup e k = some v) :
    alookup (pyUpdate d e) k = some v := by
  induction e generalizing d with
  | nil => simp at h
  | cons p rest ih =>
    simp only [keys_cons, List.nodup_cons] at hnd
    rw [alookup_cons] at h
    by_cases hp : p.1 = k
    · rw [if_pos hp] at h
      have hv : p.2 = v := Option.some.inj h
      have hrest : alookup rest k = none :=
        alookup_eq_none_of_not_mem (by rw [← hp]; exact hnd.1)
      rw [pyUpdate_cons, alookup_pyUpdate_of_none _ hrest, hp, hv, alookup_pyInsert_self]
    · rw [if_neg hp] at h
      rw [pyUpdate_cons]
      exact ih _ hnd.2 h

theorem keys_pyUpdate {α : Type} {e : List (FieldName × α)} (d : List (FieldName × α))
    (hnd : (keys e).Nodup) :
    keys (pyUpdate d e) = keys d ++ (keys e).filter (fun k => decide (k ∉ keys d)) := by
  induction e generalizing d with
  | nil => simp [pyUpdate]
  | cons p rest ih =>
    simp only [keys_cons, List.nodup_cons] at hnd
    rw [pyUpdate_cons]
    by_cases hp : p.1 ∈ keys d
    · rw [ih _ hnd.2, keys_pyInsert_of_mem _ hp, keys_cons, List.filter_cons]
      simp [hp]
    · rw [ih _ hnd.2, keys_pyInsert_of_not_mem _ hp, keys_cons, List.filter_cons]
      have hfc : (keys rest).filter (fun k => decide (k ∉ keys d ++ [p.1]))
          = (keys rest).filter (fun k => decide (k ∉ keys d)) := by
        apply List.filter_congr
        intro x hx
        have hxp : x ≠ p.1 := fun hh => hnd.1 (hh ▸ hx)
        rw [decide_eq_decide]
        simp [List.mem_append, hxp]
      rw [hfc]
      simp [hp, List.append_assoc]

mutual
/-- Runtime values of the embedded fragment of Python.  A `record` carries its
concrete type name and its field values in descriptor order (all fields,
internal ones included); an `ntup` is a `collections.namedtuple`-like value
(it has `_asdict`); `dict` keys are restricted to strings, which is all the
module ever produces or traverses. -/
inductive Value where
  | int : Int → Value
  | str : String → Value
  | list : VList → Value
  | tup : VList → Value
  | ntup : String → FList → Value
  | dict : FList → Value
  | record : String → FList → Value
  deriving DecidableEq

/-- A list of values (elements of a Python list or tuple). -/
inductive VList where
  | nil : VList
  | cons : Value → VList → VList
  deriving DecidableEq

/-- An insertion-ordered string-keyed mapping of values. -/
inductive FList where
  | nil : FList
  | cons : FieldName → Value → FList → FList
  deriving DecidableEq
end

def VList.toList : VList → List Value
  | .nil => []
  | .cons v vs => v :: vs.toList

def FList.toList : FList → List (FieldName × Value)
  | .nil => []
  | .cons k v ps => (k, v) :: ps.toList

def FList.ofList : List (FieldName × Value) → FList
  | [] => .nil
  | (k, v) :: ps => .cons k v (FList.ofList ps)

def FList.lookupF : FList → FieldName → Option Value
  | .nil, _ => none
  | .cons k v ps, k' => if k = k' then some v else ps.lookupF k'

def FList.lenF : FList → Nat
  | .nil => 0
  | .cons _ _ ps => ps.lenF + 1

mutual
/-- `_recurse_structure(var, iter_proc)` (lines 240-252), specialised to the
two `iter_proc` values the module uses: `toDict = true` is `as_dict`'s
`dict_factory` (keep the key/value pairs), `toDict = false` is `as_tuple`'s
`lambda k_v: tuple(v for k, v in k_v)` (keep the recursed values only).
A data-class instance is first replaced by its full field mapping
(`fields(var, internals=True)`), a named tuple by `_asdict()`; both then fall
into the dict case.  Lists and tuples are rebuilt with the same type.  Keys
are strings, on which the recursion is the identity, so recursing them is a
no-op in this embedding. -/
def _recurse_structure (toDict : Bool) : Value → Value
  | .int n => .int n
  | .str s => .str s
  | .list xs => .list (recurseElems toDict xs)
  | .tup xs => .tup (recurseElems toDict xs)
  | .ntup _ fs => if toDict then .dict (recursePairs toDict fs) else .tup (recurseVals toDict fs)
  | .dict fs => if toDict then .dict (recursePairs toDict fs) else .tup (recurseVals toDict fs)
  | .record _ fs => if toDict then .dict (recursePairs toDict fs) else .tup (recurseVals toDict fs)

def recurseElems (toDict : Bool) : VList → VList
  | .nil => .nil
  | .cons v vs => .cons (_recurse_structure toDict v) (recurseElems toDict vs)

def recursePairs (toDict : Bool) : FList → FList
  | .nil => .nil
  | .cons k v ps => .cons k (_recurse_structure toDict v) (recursePairs toDict ps)

def recurseVals (toDict : Bool) : FList → VList
  | .nil => .nil
  | .cons _ v ps => .cons (_recurse_structure toDict v) (recurseVals toDict ps)
end

/-- `as_tuple` (line 86): recursively convert to nested tuples. -/
def as_tuple (v : Value) : Value := _recurse_structure false v

/-- `as_dict` (line 80): recursively convert to nested dicts. -/
def as_dict (v : Value) : Value := _recurse_structure true v

/-- The generated `__eq__` (lines 221-222):
`type(self) is type(other) and as_tuple(self) == as_tuple(other)`.
The type test is identity of the concrete classes, embedded as equality of
the type tags; it short-circuits, so comparing against any non-record value
yields `false` without error (the function is total). -/
def dcEq : Value → Value → Bool
  | .record t fs, .record u gs =>
      t == u && decide (as_tuple (.record t fs) = as_tuple (.record u gs))
  | _, _ => false

mutual
/-- Python `==` on embedded values: structural on scalars, lists and tuples;
named tuples compare as their value tuples (also against plain tuples);
dicts compare order-insensitively (same size and every key of the left dict
maps to an equal value in the right one); records compare with the generated
`__eq__`. -/
def pyEq : Value → Value → Bool
  | .int n, .int m => n == m
  | .str s, .str t => s == t
  | .list xs, .list ys => pyEqElems xs ys
  | .tup xs, .tup ys => pyEqElems xs ys
  | .tup xs, .ntup _ gs => pyEqElemsVals xs gs
  | .ntup _ fs, .tup ys => pyEqValsElems fs ys
  | .ntup _ fs, .ntup _ gs => pyEqValsVals fs gs
  | .dict ps, .dict qs => (ps.lenF == qs.lenF) && pyEqDictAux ps qs
  | x@(.record _ _), y@(.record _ _) => dcEq x y
  | _, _ => false
  termination_by structural x => x

def pyEqElems : VList → VList → Bool
  | .nil, .nil => true
  | .cons x xs, .cons y ys => pyEq x y && pyEqElems xs ys
  | _, _ => false
  termination_by structural x => x

def pyEqElemsVals : VList → FList → Bool
  | .nil, .nil => true
  | .cons x xs, .cons _ w qs => pyEq x w && pyEqElemsVals xs qs
  | _, _ => false
  termination_by structural x => x

def pyEqValsElems : FList → VList → Bool
  | .nil, .nil => true
  | .cons _ v ps, .cons y ys => pyEq v y && pyEqValsElems ps ys
  | _, _ => false
  termination_by structural x => x

def pyEqValsVals : FList → FList → Bool
  | .nil, .nil => true
  | .cons _ v ps, .cons _ w qs => pyEq v w && pyEqValsVals ps qs
  | _, _ => false
  termination_by structural x => x

def pyEqDictAux : FList → FList → Bool
  | .nil, _ => true
  | .cons k v ps, qs =>
      (match qs.lookupF k with
       | some w => pyEq v w
       | none => false) && pyEqDictAux ps qs
  termination_by structural x => x
end

/-- The SPEC's wording of generated equality, for claim C1: `x == y` iff the
concrete types are identical and the field-value tuples are element-wise
equal, element-wise equality of field values being Python `==` (`pyEq`).
This is the spec-side definition, to be compared with the source's `dcEq`. -/
def specFieldwiseEq : Value → Value → Bool
  | .record t fs, .record u gs => t == u && pyEqValsVals fs gs
  | _, _ => false

/-- Type annotations, as far as `Internal.is_internal` inspects them: a plain
type, the wrapper `Internal[...]` (whose `__origin__` is `Internal`), or a
string forward reference. -/
inductive Ann where
  | ty : String → Ann
  | wrap : Ann → Ann
  | fwd : String → Ann
  deriving DecidableEq

/-- Python `"Internal" in s`: substring containment. -/
def strContainsInternal (s : String) : Bool :=
  s.toList.tails.any (fun t => "Internal".toList.isPrefixOf t)

namespace Internal

/-- `Internal.is_internal` (lines 258-261): the annotation's `__origin__` is
`Internal`, or the annotation is a string containing `"Internal"`. -/
def is_internal : Ann → Bool
  | .wrap _ => true
  | .fwd s => strContainsInternal s
  | .ty _ => false

end Internal

/-- Python `f.startswith("_")`, embedded over the string's character list
(which, unlike `String.startsWith`, the kernel can evaluate). -/
def startsWithUnderscore (f : FieldName) : Bool :=
  match f.toList with
  | [] => false
  | c :: _ => c == '_'

/-- `_filter_annotations` (lines 235-238): keep everything when `internals`
is requested, otherwise drop fields whose name starts with `"_"` and fields
with an `Internal` annotation. -/
def _filter_annotations (anns : List (FieldName × Ann)) (internals : Bool) :
    List (FieldName × Ann) :=
  if internals then anns
  else anns.filter (fun p => !(startsWithUnderscore p.1) && !(Internal.is_internal p.2))

/-- The behavior flags with their defaults, `DataClassMeta._DEFAULT_OPTIONS`
(lines 103-112). -/
def _DEFAULT_OPTIONS : List (FieldName × Bool) :=
  [("init", true), ("repr", true), ("eq", true), ("iter", false),
   ("frozen", false), ("kwargs", false), ("slots", false), ("hide_internals", true)]

/-- A created data class: its name, merged annotations (`__annotations__`,
field name to annotation in descriptor order), merged defaults
(`__defaults__`, which per the source accumulates every inherited class-body
member, methods included), and merged options (`__dataclass__`). -/
structure DCClass where
  name : String
  annotations : List (FieldName × Ann)
  defaults : List (FieldName × Value)
  options : List (FieldName × Bool)
  deriving DecidableEq

/-- A class body handed to the metaclass: the declared annotations and the
class-level assignments (field defaults, methods and other members; only the
names of non-default members are ever inspected, so their values are
embedded as `Value`s as well). -/
structure ClassBody where
  annotations : List (FieldName × Ann)
  members : List (FieldName × Value)
  deriving DecidableEq

/-- `DataClassMeta.__new__` (lines 114-166).  Dataclass bases are the created
classes (`vars(b)` exposes their `__annotations__`, `__defaults__`,
`__dataclass__`); non-dataclass bases are filtered out by the
`hasattr(b, "__dataclass__")` test and contribute nothing.  Annotations,
defaults and options are merged by Python dict update over the bases in
order followed by the body; `b.get("__defaults__", namespace)` falls back to
the body's own members for the new class; options start from
`_DEFAULT_OPTIONS` and the decorator keyword arguments are applied last.
The namespace then receives the merged defaults, and a declared
`__post_init__` aborts class creation with a `TypeError` before any class is
produced.  The slots machinery (lines 143-153) rewrites only the class
namespace, never the descriptor data modelled here. -/
def dataClassMetaNew (name : String) (bases : List DCClass) (ns : ClassBody)
    (kwargs : List (FieldName × Bool)) : Except String DCClass :=
  let all_annotations := (bases.map (·.annotations) ++ [ns.annotations]).foldl pyUpdate []
  let all_defaults := (bases.map (·.defaults) ++ [ns.members]).foldl pyUpdate []
  let options := pyUpdate ((bases.map (·.options)).foldl pyUpdate _DEFAULT_OPTIONS) kwargs
  let nsFull := pyUpdate ns.members all_defaults
  if "__post_init__" ∈ keys nsFull then
    .error "dataclassy does not use __post_init__. You should rename this method __init__"
  else
    .ok ⟨name, all_annotations, all_defaults, options⟩

/-- An instance of a data class: its class and its field values, stored in
descriptor order. -/
structure Instance where
  cls : DCClass
  fieldValues : List (FieldName × Value)
  deriving DecidableEq

/-- Well-formed instance: the stored fields are exactly the class's annotated
fields, in descriptor order, without repetition. -/
def Instance.WF (i : Instance) : Prop :=
  keys i.fieldValues = keys i.cls.annotations ∧ (keys i.fieldValues).Nodup

/-- Python `getattr(instance, f)` restricted to field access. -/
def getattrI (i : Instance) (f : FieldName) : Option Value :=
  alookup i.fieldValues f

/-- The dict comprehension shared by `fields` and the generated `__new__`:
bind every listed field name to the value `hf` produces for it, failing when
any binding fails. -/
def mapFields {β : Type} (hf : FieldName → Option Value) :
    List (FieldName × β) → Option (List (FieldName × Value))
  | [] => some []
  | p :: ps =>
    match hf p.1, mapFields hf ps with
    | some v, some rest => some ((p.1, v) :: rest)
    | _, _ => none

/-- `fields(dataclass, internals)` (lines 74-78): each name surviving
`_filter_annotations`, paired with the instance's current value; `none` when
a selected field is missing on the instance (Python would raise). -/
def fields (i : Instance) (internals : Bool) : Option (List (FieldName × Value)) :=
  mapFields (getattrI i) (_filter_annotations i.cls.annotations internals)

/-- The field/value pairs interpolated by the generated `__repr__` (lines
227-230): `show_internals = not hide_internals`, then
`fields(self, show_internals)`.  The surrounding string assembly is not
modelled; a field is part of the representation iff it is in this list.
The options mapping of a created class always carries all eight keys, so the
`getD` default is never consulted on classes built by `dataClassMetaNew`. -/
def reprFields (i : Instance) : Option (List (FieldName × Value)) :=
  fields i (!((alookup i.cls.options "hide_internals").getD false))

/-- The value of an instance, as seen by the recursive conversions: a record
tagged with the concrete class name, carrying all fields in order. -/
def Instance.toValue (i : Instance) : Value :=
  .record i.cls.name (FList.ofList i.fieldValues)

/-- The generated `__iter__` (lines 224-225): `iter(as_tuple(self))`; the
yielded elements are the elements of the `as_tuple` conversion (which is
always a tuple on a record, so the fallback branch is dead). -/
def dcIter (i : Instance) : VList :=
  match as_tuple i.toValue with
  | .tup l => l
  | _ => .nil

/-- Attribute assignment on an instance.  On a frozen class the metaclass
installs the generated `__setattr__` (lines 163-164, 232-233), which
unconditionally raises `AttributeError("frozen class")`; otherwise the
default object behavior writes the attribute. -/
def setattrDC (i : Instance) (f : FieldName) (v : Value) : Except String Instance :=
  if (alookup i.cls.options "frozen").getD false then
    .error "frozen class"
  else
    .ok { i with fieldValues := pyInsert i.fieldValues f v }

/-- Attribute deletion: the same raising method is installed as
`__delattr__` on a frozen class (line 164). -/
def delattrDC (i : Instance) (f : FieldName) : Except String Instance :=
  if (alookup i.cls.options "frozen").getD false then
    .error "frozen class"
  else
    .ok { i with fieldValues := i.fieldValues.filter (fun p => p.1 != f) }

/-- The binding of one field by the generated `__new__`: the keyword
argument when given, else the default.  The defensive `.copy()` of a default
(lines 204-206) is the identity on embedded values; its aliasing content is
modelled separately by `constructMutableDefault`. -/
def bindField (kwargs defaults : List (FieldName × Value)) (f : FieldName) : Option Value :=
  match alookup kwargs f with
  | some v => some v
  | none => alookup defaults f

/-- The generated `__new__` (lines 190-219) called with keyword arguments,
for a class without a user `__init__` and with the `kwargs` option off:
every annotated field is bound per `bindField`; a missing required field or
an unexpected keyword name is a `TypeError` (the `kwargs.all` guard).  On a
frozen class the writes go through `object.__setattr__` (line 209) and
therefore succeed (the field mapping is built directly). -/
def constructKw (cls : DCClass) (kwargs : List (FieldName × Value)) :
    Except String Instance :=
  if kwargs.all (fun p => decide (p.1 ∈ keys cls.annotations)) then
    match mapFields (bindField kwargs cls.defaults) cls.annotations with
    | some fvs => .ok ⟨cls, fvs⟩
    | none => .error "missing required argument"
  else .error "unexpected keyword argument"

/-- `replace(dataclass, **changes)` (lines 92-94):
`type(dataclass)(**dict(fields(dataclass, internals=True), **changes))`. -/
def replace (i : Instance) (changes : List (FieldName × Value)) :
    Except String Instance :=
  match fields i true with
  | some fs => constructKw i.cls (pyUpdate fs changes)
  | none => .error "missing field"

/-- `replace` acting on a store of instances: the call allocates a new
object and leaves every existing object alone; the store makes this frame
property expressible. -/
def replaceStore (s : List Instance) (a : Nat) (changes : List (FieldName × Value)) :
    Except String (List Instance × Nat) :=
  match s[a]? with
  | none => .error "bad reference"
  | some i =>
    match replace i changes with
    | .ok j => .ok (s ++ [j], s.length)
    | .error e => .error e

/-- A parameter of the generated `__new__`, after `cls`. -/
inductive Param where
  | pos : FieldName → Param
  | star : Param
  | defaulted : FieldName → Param
  | kw : Param
  deriving DecidableEq

/-- The parameter list of the generated `__new__` (lines 194-202): required
annotated fields in declaration order, then `*args` when the user defined an
`__init__` (detected through the defaults mapping), then defaulted fields in
declaration order (emitted as `name=name` keyword defaults), then `**kwargs`
when the `kwargs` option is set or a user `__init__` exists.  Only the names
matter here, so defaults are passed as their name list. -/
def _generate_new_params (annotations : List FieldName) (defaults : List FieldName)
    (gen_kwargs : Bool) : List Param :=
  let user_init := defaults.contains "__init__"
  (annotations.filter (fun a => !(defaults.contains a))).map .pos
    ++ (if user_init then [.star] else [])
    ++ (annotations.filter (fun a => defaults.contains a)).map .defaulted
    ++ (if gen_kwargs || user_init then [.kw] else [])

/-- The annotated-field parameters of a generated parameter list, in order. -/
def paramFields (ps : List Param) : List FieldName :=
  ps.filterMap (fun p => match p with
    | .pos n => some n
    | .defaulted n => some n
    | _ => none)

/-- A heap of mutable list objects for the mutable-default analysis: an
address is an index into the heap, the payload the current list contents. -/
abbrev MutHeap := List (List Int)

/-- Construction of an instance of a class with one field whose default is a
copyable (list) object living at `defaultAddr`, following the generated
assignment `n.copy() if n is self.__defaults__[n] else n` (lines 204-210):
when the field is not passed, the parameter is bound to the default object
itself, the identity test succeeds and a fresh copy of its contents is
allocated; an explicitly passed object is stored as is unless it is the
default object itself.  Returns the new heap and the address stored in the
instance's field. -/
def constructMutableDefault (h : MutHeap) (defaultAddr : Nat) (arg : Option Nat) :
    MutHeap × Nat :=
  let n := arg.getD defaultAddr
  if n = defaultAddr then (h ++ [h.getD defaultAddr []], h.length)
  else (h, n)

/-- `instance.field.append(x)`: mutate the list object at address `a`. -/
def appendAt (h : MutHeap) (a : Nat) (x : Int) : MutHeap :=
  h.set a (h.getD a [] ++ [x])

theorem alookup_isSome_of_mem {α : Type} {l : List (FieldName × α)} {k : FieldName}
    (h : k ∈ keys l) : (alookup l k).isSome := by
  induction l with
  | nil => simp at h
  | cons p rest ih =>
    rcases eq_or_ne p.1 k with hp | hp
    · simp [hp]
    · have hk : k ∈ keys rest := by
        rcases (by simpa using h : k = p.1 ∨ k ∈ keys rest) with h1 | h1
        · exact absurd h1.symm hp
        · exact h1
      simp [hp, ih hk]

theorem mem_keys_pyInsert_of_mem {α : Type} {d : List (FieldName × α)} {k : FieldName}
    (k' : FieldName) (v : α) (h : k ∈ keys d) : k ∈ keys (pyInsert d k' v) := by
  by_cases hk : k' ∈ keys d
  · rw [keys_pyInsert_of_mem _ hk]; exact h
  · rw [keys_pyInsert_of_not_mem _ hk]; exact List.mem_append_left _ h

theorem mem_keys_pyUpdate_left {α : Type} {d : List (FieldName × α)} {k : FieldName}
    (e : List (FieldName × α)) (h : k ∈ keys d) : k ∈ keys (pyUpdate d e) := by
  induction e generalizing d with
  | nil => exact h
  | cons p rest ih =>
    rw [pyUpdate_cons]
    exact ih (mem_keys_pyInsert_of_mem _ _ h)

theorem mem_keys_pyUpdate_elim {α : Type} {d e : List (FieldName × α)} {k : FieldName}
    (h : k ∈ keys (pyUpdate d e)) : k ∈ keys d ∨ k ∈ keys e := by
  induction e generalizing d with
  | nil => exact Or.inl h
  | cons p rest ih =>
    rw [pyUpdate_cons] at h
    rcases ih h with h1 | h1
    · by_cases hk : p.1 ∈ keys d
      · rw [keys_pyInsert_of_mem _ hk] at h1
        exact Or.inl h1
      · rw [keys_pyInsert_of_not_mem _ hk] at h1
        rcases List.mem_append.mp h1 with h2 | h2
        · exact Or.inl h2
        · right
          simp only [List.mem_singleton] at h2
          simp [h2]
    · right
      simp [h1]

theorem mapFields_keys {β : Type} {hf : FieldName → Option Value} :
    ∀ {anns : List (FieldName × β)} {res : List (FieldName × Value)},
      mapFields hf anns = some res → keys res = keys anns := by
  intro anns
  induction anns with
  | nil =>
    intro res h
    simp only [mapFields] at h
    cases h
    rfl
  | cons p ps ih =>
    intro res h
    simp only [mapFields] at h
    cases hv : hf p.1 with
    | none => rw [hv] at h; simp at h
    | some v =>
      rw [hv] at h
      cases hr : mapFields hf ps with
      | none => rw [hr] at h; simp at h
      | some rest =>
        rw [hr] at h
        cases h
        simp [ih hr]

theorem mapFields_alookup {β : Type} {hf : FieldName → Option Value} :
    ∀ {anns : List (FieldName × β)} {res : List (FieldName × Value)},
      mapFields hf anns = some res → ∀ {f : FieldName}, f ∈ keys anns →
      alookup res f = hf f := by
  intro anns
  induction anns with
  | nil =>
    intro res _ f hf'
    simp at hf'
  | cons p ps ih =>
    intro res h f hmem
    simp only [mapFields] at h
    cases hv : hf p.1 with
    | none => rw [hv] at h; simp at h
    | some v =>
      rw [hv] at h
      cases hr : mapFields hf ps with
      | none => rw [hr] at h; simp at h
      | some rest =>
        rw [hr] at h
        cases h
        rcases eq_or_ne p.1 f with hp | hp
        · subst hp
          simp [hv]
        · have hm2 : f ∈ keys ps := by
            rcases (by simpa using hmem : f = p.1 ∨ f ∈ keys ps) with h1 | h1
            · exact absurd h1.symm hp
            · exact h1
          simp [hp, ih hr hm2]

theorem mapFields_isSome {β : Type} {hf : FieldName → Option Value} :
    ∀ {anns : List (FieldName × β)}, (∀ p ∈ anns, (hf p.1).isSome) →
      ∃ res, mapFields hf anns = some res := by
  intro anns
  induction anns with
  | nil => intro _; exact ⟨[], rfl⟩
  | cons p ps ih =>
    intro h
    obtain ⟨v, hv⟩ := Option.isSome_iff_exists.mp (h p (List.mem_cons_self _ _))
    obtain ⟨rest, hr⟩ := ih (fun q hq => h q (List.mem_cons_of_mem _ hq))
    exact ⟨(p.1, v) :: rest, by simp [mapFields, hv, hr]⟩

theorem mapFields_congr {β : Type} {hf hg : FieldName → Option Value} :
    ∀ {anns : List (FieldName × β)}, (∀ p ∈ anns, hf p.1 = hg p.1) →
      mapFields hf anns = mapFields hg anns := by
  intro anns
  induction anns with
  | nil => intro _; rfl
  | cons p ps ih =>
    intro h
    simp only [mapFields, h p (List.mem_cons_self _ _),
      ih (fun q hq => h q (List.mem_cons_of_mem _ hq))]

theorem mapFields_aligned {β : Type} :
    ∀ (anns : List (FieldName × β)) (fvs : List (FieldName × Value)),
      keys fvs = keys anns → (keys fvs).Nodup →
      mapFields (fun f => alookup fvs f) anns = some fvs := by
  intro anns
  induction anns with
  | nil =>
    intro fvs hk _
    have : fvs = [] := by
      cases fvs with
      | nil => rfl
      | cons q qs => simp at hk
    subst this
    rfl
  | cons p ps ih =>
    intro fvs hk hnd
    cases fvs with
    | nil => simp at hk
    | cons q qs =>
      obtain ⟨qk, qv⟩ := q
      simp only [keys_cons, List.cons.injEq] at hk
      simp only [keys_cons, List.nodup_cons] at hnd
      have hq : alookup ((qk, qv) :: qs) p.1 = some qv := by
        simp [hk.1]
      have htail : mapFields (fun f => alookup ((qk, qv) :: qs) f) ps
          = mapFields (fun f => alookup qs f) ps := by
        apply mapFields_congr
        intro r hr
        have hr1 : r.1 ∈ keys qs := by
          rw [hk.2]
          exact List.mem_map_of_mem Prod.fst hr
        have hne : qk ≠ r.1 := fun hh => hnd.1 (hh ▸ hr1)
        simp [hne]
      rw [mapFields, hq, htail, ih qs hk.2 hnd.2]
      simp [hk.1]

theorem fields_true_of_WF (i : Instance) (h : i.WF) :
    fields i true = some i.fieldValues := by
  obtain ⟨hk, hnd⟩ := h
  unfold fields _filter_annotations
  rw [if_pos rfl]
  exact mapFields_aligned i.cls.annotations i.fieldValues hk hnd

theorem recurseVals_ofList (toDict : Bool) :
    ∀ (l : List (FieldName × Value)),
      (recurseVals toDict (FList.ofList l)).toList
        = l.map (fun p => _recurse_structure toDict p.2) := by
  intro l
  induction l with
  | nil => rfl
  | cons p ps ih =>
    cases p with
    | mk k v => simp [FList.ofList, recurseVals, VList.toList, ih]

theorem dcIter_toList (i : Instance) :
    (dcIter i).toList = i.fieldValues.map (fun p => as_tuple p.2) := by
  unfold dcIter Instance.toValue
  have hrec : as_tuple (Value.record i.cls.name (FList.ofList i.fieldValues))
      = .tup (recurseVals false (FList.ofList i.fieldValues)) := rfl
  rw [hrec]
  exact recurseVals_ofList false i.fieldValues

theorem filter_annotations_false (anns : List (FieldName × Ann)) :
    _filter_annotations anns false
      = anns.filter (fun p => !(startsWithUnderscore p.1) && !(Internal.is_internal p.2)) := rfl

theorem filter_annotations_true (anns : List (FieldName × Ann)) :
    _filter_annotations anns true = anns := rfl

theorem nodup_keys_eq_of_mem {α : Type} :
    ∀ {l : List (FieldName × α)}, (keys l).Nodup →
      ∀ {p q : FieldName × α}, p ∈ l → q ∈ l → p.1 = q.1 → p = q := by
  intro l
  induction l with
  | nil =>
    intro _ p q hp
    simp at hp
  | cons r rest ih =>
    intro hnd p q hp hq hk
    simp only [keys_cons, List.nodup_cons] at hnd
    rcases List.mem_cons.mp hp with hp1 | hp1 <;> rcases List.mem_cons.mp hq with hq1 | hq1
    · rw [hp1, hq1]
    · have hq2 : q.1 ∈ keys rest := List.mem_map_of_mem Prod.fst hq1
      rw [← hk, hp1] at hq2
      exact absurd hq2 hnd.1
    · have hp2 : p.1 ∈ keys rest := List.mem_map_of_mem Prod.fst hp1
      rw [hk, hq1] at hp2
      exact absurd hp2 hnd.1
    · exact ih hnd.2 hp1 hq1 hk

/-- The nested example of claim C8: a record whose field `g` is a named
tuple with elements 1, 2, 3 and whose field `h` is a list holding one nested
record with field values 4 and 5. -/
def nestedRecordExample : Value :=
  .record "R"
    (.cons "g" (.ntup "NT" (.cons "x" (.int 1) (.cons "y" (.int 2) (.cons "z" (.int 3) .nil))))
      (.cons "h" (.list (.cons (.record "S" (.cons "a" (.int 4) (.cons "b" (.int 5) .nil))) .nil))
        .nil))

/-- C8: `as_tuple` of the nested example is the literal nested tuple
`((1, 2, 3), [(4, 5)])` — the named tuple and the nested record become
tuples while the list stays a list — and `as_dict` is the equivalent nested
dict.  `_recurse_structure` is a total (structurally recursive) function of
this development, so both conversions terminate on every finite nested
shape. -/
theorem as_tuple_as_dict_nested :
    as_tuple nestedRecordExample
      = .tup (.cons (.tup (.cons (.int 1) (.cons (.int 2) (.cons (.int 3) .nil))))
          (.cons (.list (.cons (.tup (.cons (.int 4) (.cons (.int 5) .nil))) .nil)) .nil))
    ∧ as_dict nestedRecordExample
      = .dict (.cons "g"
            (.dict (.cons "x" (.int 1) (.cons "y" (.int 2) (.cons "z" (.int 3) .nil))))
          (.cons "h" (.list (.cons (.dict (.cons "a" (.int 4) (.cons "b" (.int 5) .nil))) .nil))
            .nil)) :=
  ⟨rfl, rfl⟩

theorem paramFields_append (l l' : List Param) :
    paramFields (l ++ l') = paramFields l ++ paramFields l' :=
  List.filterMap_append l l' _

theorem paramFields_map_pos (l : List FieldName) : paramFields (l.map Param.pos) = l := by
  induction l with
  | nil => rfl
  | cons a l ih => simp [paramFields, List.filterMap_cons] at ih ⊢; exact ih

theorem paramFields_map_defaulted (l : List FieldName) :
    paramFields (l.map Param.defaulted) = l := by
  induction l with
  | nil => rfl
  | cons a l ih => simp [paramFields, List.filterMap_cons] at ih ⊢; exact ih

theorem paramFields_star : paramFields [Param.star] = [] := rfl

theorem paramFields_kw : paramFields [Param.kw] = [] := rfl

theorem paramFields_cons_star (l : List Param) :
    paramFields (Param.star :: l) = paramFields l := rfl

theorem paramFields_cons_kw (l : List Param) :
    paramFields (Param.kw :: l) = paramFields l := rfl

/-- C3: the field parameters of the generated `__new__` are exactly the
non-defaulted fields followed by the defaulted fields; each group keeps
declaration order (it is a sublist of the declaration list), and together
the parameters are a permutation of all declared fields. -/
theorem generated_params_order (anns defs : List FieldName) (gk : Bool) :
    paramFields (_generate_new_params anns defs gk)
      = anns.filter (fun a => !(defs.contains a)) ++ anns.filter (fun a => defs.contains a)
    ∧ (anns.filter (fun a => !(defs.contains a))).Sublist anns
    ∧ (anns.filter (fun a => defs.contains a)).Sublist anns
    ∧ (paramFields (_generate_new_params anns defs gk)).Perm anns := by
  have h1 : paramFields (_generate_new_params anns defs gk)
      = anns.filter (fun a => !(defs.contains a)) ++ anns.filter (fun a => defs.contains a) := by
    unfold _generate_new_params
    by_cases ui : "__init__" ∈ defs <;> by_cases hgk : gk <;>
      simp [ui, hgk, paramFields_append, paramFields_map_pos, paramFields_map_defaulted,
        paramFields_star, paramFields_kw, paramFields_cons_star, paramFields_cons_kw] <;>
      rfl
  refine ⟨h1, List.filter_sublist _, List.filter_sublist _, ?_⟩
  rw [h1]
  have h2 := List.filter_append_perm (fun a => defs.contains a) anns
  exact (List.perm_append_comm.trans h2)

/-- C9: a class body declaring `__post_init__` makes `DataClassMeta.__new__`
fail with the `TypeError` telling the user to rename the method to
`__init__`; the result is an error, so no class is produced. -/
theorem post_init_rejected (name : String) (bases : List DCClass) (ns : ClassBody)
    (kwargs : List (FieldName × Bool)) (h : "__post_init__" ∈ keys ns.members) :
    dataClassMetaNew name bases ns kwargs
      = .error "dataclassy does not use __post_init__. You should rename this method __init__" := by
  unfold dataClassMetaNew
  rw [if_pos (mem_keys_pyUpdate_left _ h)]

theorem post_init_rejected_witness :
    dataClassMetaNew "Deprecated" [] ⟨[], [("__post_init__", Value.int 0)]⟩ []
      = .error "dataclassy does not use __post_init__. You should rename this method __init__" :=
  post_init_rejected "Deprecated" [] ⟨[], [("__post_init__", Value.int 0)]⟩ [] (by decide)

/-- C10: with internals off, `fields` never contains a field whose name
begins with an underscore, whatever its annotation; the generated
representation interpolates exactly this mapping, so such fields are also
absent from it. -/
theorem fields_excludes_underscore (i : Instance) (res : List (FieldName × Value))
    (h : fields i false = some res) :
    ∀ p ∈ res, startsWithUnderscore p.1 = false := by
  intro p hp
  unfold fields at h
  have hk : keys res = keys (_filter_annotations i.cls.annotations false) :=
    mapFields_keys h
  have hmem : p.1 ∈ keys (_filter_annotations i.cls.annotations false) := by
    rw [← hk]
    exact List.mem_map_of_mem Prod.fst hp
  rw [filter_annotations_false] at hmem
  obtain ⟨q, hq, hq1⟩ := List.mem_map.mp hmem
  have hqpred := List.of_mem_filter hq
  simp only [Bool.and_eq_true] at hqpred
  rcases hqpred with ⟨h1, _⟩
  rw [← hq1]
  simpa using h1

/-- The concrete instance for the C10 witness: one ordinary field and one
underscore-named field with a plain (non-`Internal`) annotation. -/
def underscoreExample : Instance :=
  ⟨⟨"W", [("a", Ann.ty "int"), ("_i", Ann.ty "int")], [], _DEFAULT_OPTIONS⟩,
   [("a", Value.int 1), ("_i", Value.int 0)]⟩

theorem fields_excludes_underscore_witness :
    fields underscoreExample false = some [("a", Value.int 1)]
    ∧ ∀ p ∈ [("a", Value.int 1)], startsWithUnderscore p.1 = false :=
  ⟨by decide, fields_excludes_underscore underscoreExample [("a", Value.int 1)] (by decide)⟩

/-- C5: on a frozen class, construction succeeds and populates every
annotated field (the generated `__new__` writes through
`object.__setattr__`), and every subsequent attribute assignment or
deletion fails with the `AttributeError` raised by the installed
`__setattr__`/`__delattr__`. -/
theorem frozen_construction_and_mutation (cls : DCClass) (kwargs : List (FieldName × Value))
    (hfrozen : alookup cls.options "frozen" = some true)
    (hkw : ∀ p ∈ kwargs, p.1 ∈ keys cls.annotations)
    (hcover : ∀ p ∈ cls.annotations, (bindField kwargs cls.defaults p.1).isSome) :
    ∃ i, constructKw cls kwargs = .ok i
      ∧ i.cls = cls
      ∧ keys i.fieldValues = keys cls.annotations
      ∧ (∀ f v, setattrDC i f v = .error "frozen class")
      ∧ (∀ f, delattrDC i f = .error "frozen class") := by
  obtain ⟨res, hres⟩ := mapFields_isSome hcover
  refine ⟨⟨cls, res⟩, ?_, rfl, mapFields_keys hres, ?_, ?_⟩
  · unfold constructKw
    rw [if_pos (List.all_eq_true.mpr (fun p hp => decide_eq_true (hkw p hp))), hres]
  · intro f v
    unfold setattrDC
    rw [hfrozen]
    rfl
  · intro f
    unfold delattrDC
    rw [hfrozen]
    rfl

/-- The concrete frozen class of the C5 witness. -/
def frozenExampleCls : DCClass :=
  ⟨"Frozen", [("a", Ann.ty "int"), ("b", Ann.ty "int")], [],
   pyUpdate _DEFAULT_OPTIONS [("frozen", true)]⟩

theorem frozen_construction_and_mutation_witness :
    ∃ i, constructKw frozenExampleCls [("a", Value.int 1), ("b", Value.int 2)] = .ok i
      ∧ i.cls = frozenExampleCls
      ∧ keys i.fieldValues = keys frozenExampleCls.annotations
      ∧ (∀ f v, setattrDC i f v = .error "frozen class")
      ∧ (∀ f, delattrDC i f = .error "frozen class") :=
  frozen_construction_and_mutation frozenExampleCls [("a", Value.int 1), ("b", Value.int 2)]
    (by decide) (by decide) (by decide)

theorem foldl_pyUpdate_append {α : Type} (ls : List (List (FieldName × α)))
    (x init : List (FieldName × α)) :
    (ls ++ [x]).foldl pyUpdate init = pyUpdate (ls.foldl pyUpdate init) x := by
  rw [List.foldl_append]
  rfl

/-- C2: for a class derived from one or more dataclass bases, the merged
descriptor's fields are the union of the parents' (merged) fields, their
order preserved and placed first, with the subclass's new fields appended in
declaration order; a same-named subclass annotation overrides the inherited
one, a subclass class-body default overrides the inherited default, and a
decorator flag overrides the inherited flag. -/
theorem inheritance_merge (name : String) (bases : List DCClass) (ns : ClassBody)
    (kwargs : List (FieldName × Bool)) (cls : DCClass)
    (hndA : (keys ns.annotations).Nodup)
    (hndM : (keys ns.members).Nodup)
    (hndK : (keys kwargs).Nodup)
    (hok : dataClassMetaNew name bases ns kwargs = .ok cls) :
    keys cls.annotations
        = keys ((bases.map (·.annotations)).foldl pyUpdate [])
          ++ (keys ns.annotations).filter
              (fun k => decide (k ∉ keys ((bases.map (·.annotations)).foldl pyUpdate [])))
    ∧ (∀ k v, alookup ns.annotations k = some v → alookup cls.annotations k = some v)
    ∧ (∀ k, alookup ns.annotations k = none →
        alookup cls.annotations k
          = alookup ((bases.map (·.annotations)).foldl pyUpdate []) k)
    ∧ (∀ k v, alookup ns.members k = some v → alookup cls.defaults k = some v)
    ∧ (∀ k b, alookup kwargs k = some b → alookup cls.options k = some b) := by
  simp only [dataClassMetaNew] at hok
  split at hok
  · exact absurd hok (by simp)
  · have hcls : (⟨name, (bases.map (·.annotations) ++ [ns.annotations]).foldl pyUpdate [],
        (bases.map (·.defaults) ++ [ns.members]).foldl pyUpdate [],
        pyUpdate ((bases.map (·.options)).foldl pyUpdate _DEFAULT_OPTIONS) kwargs⟩ : DCClass)
        = cls := by
      exact Except.ok.inj hok
    subst hcls
    refine ⟨?_, ?_, ?_, ?_, ?_⟩
    · show keys ((bases.map (·.annotations) ++ [ns.annotations]).foldl pyUpdate []) = _
      rw [foldl_pyUpdate_append]
      exact keys_pyUpdate _ hndA
    · intro k v h
      show alookup ((bases.map (·.annotations) ++ [ns.annotations]).foldl pyUpdate []) k
        = some v
      rw [foldl_pyUpdate_append]
      exact alookup_pyUpdate_of_some _ hndA h
    · intro k h
      show alookup ((bases.map (·.annotations) ++ [ns.annotations]).foldl pyUpdate []) k = _
      rw [foldl_pyUpdate_append]
      exact alookup_pyUpdate_of_none _ h
    · intro k v h
      show alookup ((bases.map (·.defaults) ++ [ns.members]).foldl pyUpdate []) k = some v
      rw [foldl_pyUpdate_append]
      exact alookup_pyUpdate_of_some _ hndM h
    · intro k b h
      show alookup (pyUpdate ((bases.map (·.options)).foldl pyUpdate _DEFAULT_OPTIONS) kwargs) k
        = some b
      exact alookup_pyUpdate_of_some _ hndK h

/-- The concrete base class of the C2 witness, modelled on `Alpha` of the
test suite. -/
def mergeExampleBase : DCClass :=
  ⟨"Alpha", [("a", Ann.ty "int"), ("b", Ann.ty "int"), ("c", Ann.ty "int")],
   [("b", Value.int 2)], _DEFAULT_OPTIONS⟩

/-- The concrete subclass body of the C2 witness: a new field `d` with a
default, and an override of the annotation of `b`. -/
def mergeExampleBody : ClassBody :=
  ⟨[("d", Ann.ty "int"), ("b", Ann.ty "str")], [("d", Value.int 4)]⟩

/-- The class the metaclass builds for the C2 witness. -/
def mergeExampleOut : DCClass :=
  ⟨"Beta",
   [("a", Ann.ty "int"), ("b", Ann.ty "str"), ("c", Ann.ty "int"), ("d", Ann.ty "int")],
   [("b", Value.int 2), ("d", Value.int 4)],
   [("init", true), ("repr", true), ("eq", true), ("iter", true), ("frozen", false),
    ("kwargs", false), ("slots", false), ("hide_internals", true)]⟩

theorem inheritance_merge_witness :
    keys mergeExampleOut.annotations
        = keys (([mergeExampleBase].map (·.annotations)).foldl pyUpdate [])
          ++ (keys mergeExampleBody.annotations).filter
              (fun k =>
                decide (k ∉ keys (([mergeExampleBase].map (·.annotations)).foldl pyUpdate [])))
    ∧ (∀ k v, alookup mergeExampleBody.annotations k = some v →
        alookup mergeExampleOut.annotations k = some v)
    ∧ (∀ k, alookup mergeExampleBody.annotations k = none →
        alookup mergeExampleOut.annotations k
          = alookup (([mergeExampleBase].map (·.annotations)).foldl pyUpdate []) k)
    ∧ (∀ k v, alookup mergeExampleBody.members k = some v →
        alookup mergeExampleOut.defaults k = some v)
    ∧ (∀ k b, alookup [("iter", true)] k = some b →
        alookup mergeExampleOut.options k = some b) :=
  inheritance_merge "Beta" [mergeExampleBase] mergeExampleBody [("iter", true)]
    mergeExampleOut (by decide) (by decide) (by decide) rfl

/-- C6: `replace` builds a new instance of the same concrete class from the
instance's full field mapping (internal fields included) overridden by the
changes; it leaves every existing object in the store untouched, and in the
new instance every field carries the override when one was given and the
original's current value otherwise (so the original keeps its old value). -/
theorem replace_frame (s : List Instance) (a : Nat) (changes : List (FieldName × Value))
    (i : Instance) (hs : s[a]? = some i) (hwf : i.WF)
    (hch : ∀ p ∈ changes, p.1 ∈ keys i.cls.annotations)
    (hndCh : (keys changes).Nodup) :
    ∃ j, replaceStore s a changes = .ok (s ++ [j], s.length)
      ∧ (∀ b, b < s.length → (s ++ [j])[b]? = s[b]?)
      ∧ j.cls = i.cls
      ∧ keys j.fieldValues = keys i.cls.annotations
      ∧ (∀ f, f ∈ keys i.cls.annotations →
          alookup j.fieldValues f = bindField changes i.fieldValues f) := by
  have hfs : fields i true = some i.fieldValues := fields_true_of_WF i hwf
  have hkwmem : ∀ p ∈ pyUpdate i.fieldValues changes, p.1 ∈ keys i.cls.annotations := by
    intro p hp
    have hpk : p.1 ∈ keys (pyUpdate i.fieldValues changes) :=
      List.mem_map_of_mem Prod.fst hp
    rcases mem_keys_pyUpdate_elim hpk with h1 | h1
    · rw [← hwf.1]
      exact h1
    · obtain ⟨q, hq, hq1⟩ := List.mem_map.mp h1
      rw [← hq1]
      exact hch q hq
  have hsome : ∀ f, f ∈ keys i.cls.annotations →
      (alookup (pyUpdate i.fieldValues changes) f).isSome := by
    intro f hfm
    cases hc : alookup changes f with
    | some v =>
      rw [alookup_pyUpdate_of_some _ hndCh hc]
      rfl
    | none =>
      rw [alookup_pyUpdate_of_none _ hc]
      exact alookup_isSome_of_mem (by rw [hwf.1]; exact hfm)
  have hcover : ∀ p ∈ i.cls.annotations,
      (bindField (pyUpdate i.fieldValues changes) i.cls.defaults p.1).isSome := by
    intro p hp
    have hps := hsome p.1 (List.mem_map_of_mem Prod.fst hp)
    unfold bindField
    cases hx : alookup (pyUpdate i.fieldValues changes) p.1 with
    | some v => rfl
    | none =>
      rw [hx] at hps
      simp at hps
  obtain ⟨res, hres⟩ := mapFields_isSome hcover
  have hcons : constructKw i.cls (pyUpdate i.fieldValues changes) = .ok ⟨i.cls, res⟩ := by
    unfold constructKw
    rw [if_pos (List.all_eq_true.mpr (fun p hp => decide_eq_true (hkwmem p hp))), hres]
  have hrepl : replace i changes = .ok ⟨i.cls, res⟩ := by
    unfold replace
    rw [hfs]
    exact hcons
  refine ⟨⟨i.cls, res⟩, ?_, ?_, rfl, mapFields_keys hres, ?_⟩
  · simp only [replaceStore, hs, hrepl]
  · intro b hb
    exact List.getElem?_append_left hb
  · intro f hf
    rw [mapFields_alookup hres hf]
    cases hc : alookup changes f with
    | some v =>
      have h2 : alookup (pyUpdate i.fieldValues changes) f = some v :=
        alookup_pyUpdate_of_some _ hndCh hc
      unfold bindField
      rw [h2, hc]
    | none =>
      have h2 : alookup (pyUpdate i.fieldValues changes) f = alookup i.fieldValues f :=
        alookup_pyUpdate_of_none _ hc
      have h3 : (alookup i.fieldValues f).isSome :=
        alookup_isSome_of_mem (by rw [hwf.1]; exact hf)
      obtain ⟨v, hv⟩ := Option.isSome_iff_exists.mp h3
      unfold bindField
      rw [h2, hv, hc]

/-- The concrete instance of the C6 witness. -/
def replaceExample : Instance :=
  ⟨⟨"B", [("a", Ann.ty "int"), ("f", Ann.ty "int")], [], _DEFAULT_OPTIONS⟩,
   [("a", Value.int 1), ("f", Value.int 3)]⟩

theorem replace_frame_witness :
    ∃ j, replaceStore [replaceExample] 0 [("f", Value.int 4)]
        = .ok ([replaceExample] ++ [j], 1)
      ∧ (∀ b, b < 1 → ([replaceExample] ++ [j])[b]? = [replaceExample][b]?)
      ∧ j.cls = replaceExample.cls
      ∧ keys j.fieldValues = keys replaceExample.cls.annotations
      ∧ (∀ f, f ∈ keys replaceExample.cls.annotations →
          alookup j.fieldValues f
            = bindField [("f", Value.int 4)] replaceExample.fieldValues f) :=
  replace_frame [replaceExample] 0 [("f", Value.int 4)] replaceExample
    (by decide) ⟨by decide, by decide⟩ (by decide) (by decide)

/-- C1 (amended): the generated equality returns `true` iff the two values
are records of the identical concrete type whose recursive tuple
conversions (`as_tuple`) coincide; against any non-record value it returns
`false`.  `dcEq` is a total function, so no comparison raises. -/
theorem dcEq_characterization (x y : Value) :
    (dcEq x y = true ↔
      ∃ t fs gs, x = .record t fs ∧ y = .record t gs ∧ as_tuple x = as_tuple y)
    ∧ ((∀ u gs, y ≠ .record u gs) → dcEq x y = false) := by
  constructor
  · constructor
    · intro h
      unfold dcEq at h
      split at h
      · next t fs u gs =>
        simp only [Bool.and_eq_true, beq_iff_eq, decide_eq_true_eq] at h
        exact ⟨t, fs, gs, rfl, by rw [h.1], h.2⟩
      · simp at h
    · rintro ⟨t, fs, gs, rfl, rfl, hat⟩
      simp [dcEq, hat]
  · intro hy
    cases x <;> cases y <;> first | exact absurd rfl (hy _ _) | simp [dcEq]

theorem dcEq_characterization_witness :
    dcEq (Value.record "P" (.cons "d" (Value.int 1) .nil)) (Value.int 0) = false :=
  (dcEq_characterization (Value.record "P" (.cons "d" (Value.int 1) .nil)) (Value.int 0)).2
    (fun _ _ h => Value.noConfusion h)

/-- C1 counterexample: two instances of the same record type `P` whose
single field `d` holds dicts with different keys, `{"a": 1}` and `{"b": 1}`.
These field values are unequal under Python `==` (`pyEq`), so the field
tuples are not element-wise equal — yet the generated `__eq__` returns
`True`, because `as_tuple` drops dict keys and both instances convert to
`((1,),)`.  Generated equality is therefore not element-wise equality of
the field-value tuples. -/
theorem dcEq_not_fieldwise_counterexample :
    dcEq (.record "P" (.cons "d" (.dict (.cons "a" (.int 1) .nil)) .nil))
        (.record "P" (.cons "d" (.dict (.cons "b" (.int 1) .nil)) .nil)) = true
    ∧ specFieldwiseEq (.record "P" (.cons "d" (.dict (.cons "a" (.int 1) .nil)) .nil))
        (.record "P" (.cons "d" (.dict (.cons "b" (.int 1) .nil)) .nil)) = false
    ∧ pyEq (.dict (.cons "a" (.int 1) .nil)) (.dict (.cons "b" (.int 1) .nil)) = false :=
  ⟨by decide, by decide, by decide⟩

/-- The concrete instance with an `Internal`-annotated field `e`, used by
the C7 counterexample and witness. -/
def internalExample : Instance :=
  ⟨⟨"E", [("a", Ann.ty "int"), ("e", Ann.wrap (Ann.ty "Dict"))], [], _DEFAULT_OPTIONS⟩,
   [("a", Value.int 1), ("e", Value.int 2)]⟩

/-- C7 counterexample: the generated `__iter__` is `iter(as_tuple(self))`
and `as_tuple` reads `fields(..., internals=True)`, so iterating an
instance with an `Internal`-annotated field yields that field's value too.
Internal fields are NOT excluded from default iteration (only from the
representation, whose field mapping here is `[("a", 1)]`). -/
theorem internal_field_in_iteration_counterexample :
    Internal.is_internal (Ann.wrap (Ann.ty "Dict")) = true
    ∧ dcIter internalExample = .cons (Value.int 1) (.cons (Value.int 2) .nil)
    ∧ getattrI internalExample "e" = some (Value.int 2)
    ∧ reprFields internalExample = some [("a", Value.int 1)] :=
  ⟨rfl, by decide, by decide, by decide⟩

/-- C7 (amended): an `Internal`-annotated field is excluded from the field
mapping the representation interpolates whenever internals are hidden (the
default), is present in `fields` when internals are explicitly requested,
and participates in iteration and tuple conversion: iteration — and hence
`as_tuple`, on which the generated `__eq__` is built — covers every stored
field, internal ones included. -/
theorem internal_field_visibility (i : Instance) (f : FieldName) (a : Ann)
    (hnd : (keys i.cls.annotations).Nodup)
    (hmem : (f, a) ∈ i.cls.annotations)
    (hint : Internal.is_internal a = true) :
    (∀ res, fields i false = some res → f ∉ keys res)
    ∧ (∀ res, fields i true = some res → f ∈ keys res)
    ∧ (dcIter i).toList = i.fieldValues.map (fun p => as_tuple p.2) := by
  refine ⟨?_, ?_, dcIter_toList i⟩
  · intro res hres hf
    unfold fields at hres
    have hk : keys res = keys (_filter_annotations i.cls.annotations false) :=
      mapFields_keys hres
    rw [hk, filter_annotations_false] at hf
    obtain ⟨q, hq, hq1⟩ := List.mem_map.mp hf
    have hqmem : q ∈ i.cls.annotations := List.mem_of_mem_filter hq
    have hqeq : q = (f, a) :=
      nodup_keys_eq_of_mem hnd hqmem hmem (show q.1 = (f, a).1 from hq1)
    have hqpred := List.of_mem_filter hq
    rw [hqeq] at hqpred
    simp [hint] at hqpred
  · intro res hres
    unfold fields at hres
    have hk : keys res = keys (_filter_annotations i.cls.annotations true) :=
      mapFields_keys hres
    rw [hk, filter_annotations_true]
    exact List.mem_map_of_mem Prod.fst hmem

theorem internal_field_visibility_witness :
    (∀ res, fields internalExample false = some res → "e" ∉ keys res)
    ∧ (∀ res, fields internalExample true = some res → "e" ∈ keys res)
    ∧ (dcIter internalExample).toList
        = internalExample.fieldValues.map (fun p => as_tuple p.2) :=
  internal_field_visibility internalExample "e" (Ann.wrap (Ann.ty "Dict"))
    (by decide) (by decide) rfl

/-- C4: constructing two instances without passing the copy-supporting
defaulted field gives each a fresh copy of the default object — the
generated assignment is `n.copy() if n is self.__defaults__[n] else n` — so
appending to the first instance's field (`h3`) leaves the second instance's
value the original default contents, gives the first instance's field the
appended contents, and leaves the shared default object untouched. -/
theorem mutable_default_isolation (h0 h1 h2 h3 : MutHeap) (d a1 a2 : Nat) (x : Int)
    (hd : d < h0.length)
    (h1def : constructMutableDefault h0 d none = (h1, a1))
    (h2def : constructMutableDefault h1 d none = (h2, a2))
    (h3def : appendAt h2 a1 x = h3) :
    a1 ≠ a2
    ∧ h3.getD a2 [] = h0.getD d []
    ∧ h3.getD a1 [] = h0.getD d [] ++ [x]
    ∧ h3.getD d [] = h0.getD d [] := by
  have hstep : ∀ h : MutHeap, constructMutableDefault h d none = (h ++ [h.getD d []], h.length) := by
    intro h
    simp [constructMutableDefault]
  rw [hstep] at h1def h2def
  injection h1def with e1h e1a
  injection h2def with e2h e2a
  subst e1h
  subst e1a
  subst e2h
  subst e2a
  subst h3def
  have hc : (h0 ++ [h0.getD d []]).getD d [] = h0.getD d [] := by
    rw [List.getD_eq_getElem?_getD, List.getElem?_append_left hd, ← List.getD_eq_getElem?_getD]
  rw [hc]
  have hlen1 : (h0 ++ [h0.getD d []]).length = h0.length + 1 := by simp
  have ha1lt : h0.length < ((h0 ++ [h0.getD d []]) ++ [h0.getD d []]).length := by
    simp
  have hne : h0.length ≠ (h0 ++ [h0.getD d []]).length := by
    rw [hlen1]
    exact Nat.ne_of_lt (Nat.lt_succ_self _)
  have hmid : ((h0 ++ [h0.getD d []]) ++ [h0.getD d []]).getD h0.length [] = h0.getD d [] := by
    rw [List.getD_eq_getElem?_getD,
      List.getElem?_append_left (by simp),
      List.getElem?_append_right (Nat.le_refl _)]
    simp
  have hlast : ((h0 ++ [h0.getD d []]) ++ [h0.getD d []]).getD
      ((h0 ++ [h0.getD d []]).length) [] = h0.getD d [] := by
    rw [List.getD_eq_getElem?_getD, List.getElem?_append_right (Nat.le_refl _)]
    simp
  refine ⟨hne, ?_, ?_, ?_⟩
  · unfold appendAt
    rw [List.getD_eq_getElem?_getD, List.getElem?_set_ne hne, ← List.getD_eq_getElem?_getD]
    exact hlast
  · unfold appendAt
    rw [List.getD_eq_getElem?_getD, List.getElem?_set_eq_of_lt _ ha1lt, Option.getD_some, hmid]
  · unfold appendAt
    have hdne : h0.length ≠ d := Nat.ne_of_gt hd
    rw [List.getD_eq_getElem?_getD, List.getElem?_set_ne hdne,
      List.getElem?_append_left (by simpa using Nat.lt_succ_of_lt hd),
      List.getElem?_append_left hd, ← List.getD_eq_getElem?_getD]

theorem mutable_default_isolation_witness :
    (1 : Nat) ≠ 2
    ∧ (appendAt [[], [], []] 1 7).getD 2 [] = [[ ], [ ], [ ]].getD 0 []
    ∧ (appendAt [[], [], []] 1 7).getD 1 [] = [[ ], [ ], [ ]].getD 0 [] ++ [7]
    ∧ (appendAt [[], [], []] 1 7).getD 0 [] = [[ ], [ ], [ ]].getD 0 [] := by
  have h := mutable_default_isolation [[]] [[], []] [[], [], []] (appendAt [[], [], []] 1 7)
    0 1 2 7 (by decide) (by decide) (by decide) rfl
  exact ⟨h.1, h.2.1, h.2.2.1, h.2.2.2⟩

end DataclassSpec
